import Mathlib

/-!
Shallow embedding of the FotoFindr camera-roll indexing core
(`CameraRollScreen` in the mobile app): the upload coordinator
(`uploadAsset`), the indexing state machine (`loadAndIndex`, `loadMore`,
`pollUntilReady`), the search filter bridge (`handleSearch`) and the grid
filter (`PhotoGrid`'s `filteredPhotos`).

Network nondeterminism (fetch results, JSON bodies, timeouts) is passed in
explicitly as outcome values; React `useState` cells become fields of
`ScreenState`, and every `setX` call appends the new state to a trace so
that temporal claims can be stated over the sequence of observable states.
-/

namespace FotoFindr

/-- index the N most recent photos on startup (`INDEX_LIMIT` in the source). -/
def INDEX_LIMIT : Nat := 30

/-- a device asset as returned by `MediaLibrary.getAssetsAsync`. -/
structure Asset where
  id : String
  uri : String
  filename : Option String
deriving Repr, DecidableEq

/-- the `LocalPhoto` record of `photogrid.tsx`: `photoId` is assigned by the
backend after upload and is absent (`none`) until then. -/
structure LocalPhoto where
  assetId : String
  photoId : Option String
  uri : String
deriving Repr, DecidableEq

/-- the `stage` state cell of `CameraRollScreen`. -/
inductive Stage
  | idle
  | clearing
  | uploading
  | processing
  | ready
deriving Repr, DecidableEq

/-- the `useState` cells of `CameraRollScreen` that the claims mention. -/
structure ScreenState where
  photos : List LocalPhoto
  loading : Bool
  permissionDenied : Bool
  indexDone : Nat
  indexTotal : Nat
  stage : Stage
  filter : List String
deriving Repr, DecidableEq

/-- the initial values of the `useState` cells. -/
def initialState : ScreenState :=
  { photos := []
    loading := true
    permissionDenied := false
    indexDone := 0
    indexTotal := 0
    stage := .idle
    filter := [] }

/-- `assets.map((a) => ({ assetId: a.id, uri: a.uri }))` — a freshly paged-in
photo has no `photoId`. -/
def mkPhoto (a : Asset) : LocalPhoto :=
  { assetId := a.id, photoId := none, uri := a.uri }

/-! ## Upload coordinator (`uploadAsset`) -/

/-- what the network did during one `uploadAsset` call.
`infoResult = some localUri?` means `getAssetInfoAsync` won its 3-second race
and returned a record whose `localUri` field is `localUri?`; `infoResult =
none` means it rejected or the 3-second race timer fired first.
`fetchResult = some pid?` means the `/upload/` fetch returned and `res.json()`
parsed, the body's `photo_id` field being `pid?` (a missing field is `none`);
`fetchResult = none` means a network error, the 8-second abort, or a JSON
parse failure — all of which throw inside the `try`. -/
structure UploadOutcome where
  infoResult : Option (Option String)
  fetchResult : Option (Option String)
deriving Repr, DecidableEq

/-- `uri = info.localUri ?? asset.uri`, with the inner `catch` falling back to
`asset.uri` when the resolution fails or its 3-second race times out. -/
def resolvedUri (asset : Asset) (infoResult : Option (Option String)) : String :=
  match infoResult with
  | some localUri => localUri.getD asset.uri
  | none => asset.uri

/-- the `setPhotos` updater run on a parsed upload response: set `photoId` on
the photo matched by `assetId`, leave every other photo untouched. -/
def applyUploadResponse (photos : List LocalPhoto) (assetId : String)
    (pid : Option String) : List LocalPhoto :=
  photos.map (fun photo =>
    if photo.assetId = assetId then { photo with photoId := pid } else photo)

/-- the `try` block of `uploadAsset`: resolve the uri, issue the fetch, parse
the body, and apply the response. An `Except.error` stands for a thrown
exception (network error, 8-second abort, or `res.json()` failure). The value
carries the new photo collection and the uri submitted in the form data. -/
def uploadAssetTry (asset : Asset) (out : UploadOutcome)
    (photos : List LocalPhoto) : Except String (List LocalPhoto × String) :=
  let uri := resolvedUri asset out.infoResult
  match out.fetchResult with
  | none => .error "backend offline or timed out"
  | some pid => .ok (applyUploadResponse photos asset.id pid, uri)

/-- `uploadAsset` with its outer `catch`: every error is swallowed and the
photo collection is left unchanged, so the operation always returns `ok`. -/
def uploadAsset (asset : Asset) (out : UploadOutcome)
    (photos : List LocalPhoto) : Except String (List LocalPhoto) :=
  match uploadAssetTry asset out photos with
  | .ok r => .ok r.1
  | .error _ => .ok photos

/-- the photo collection a caller of `uploadAsset` observes afterwards. -/
def uploadAssetPhotos (asset : Asset) (out : UploadOutcome)
    (photos : List LocalPhoto) : List LocalPhoto :=
  match uploadAsset asset out photos with
  | .ok ps => ps
  | .error _ => photos

/-! ## Grid filter (`PhotoGrid`) -/

/-- the membership test `filter.includes(photo.photoId!)`: `filter` is a
`string[]`, so a photo with absent `photoId` is never a member. -/
def photoMatches (filter : List String) (photo : LocalPhoto) : Bool :=
  match photo.photoId with
  | some pid => filter.contains pid
  | none => false

/-- `filteredPhotos` in `PhotoGrid`: when the filter is non-empty keep the
photos whose `photoId` is a member, otherwise show everything. -/
def filteredPhotos (photos : List LocalPhoto) (filter : List String) :
    List LocalPhoto :=
  if 0 < filter.length then photos.filter (photoMatches filter) else photos

/-! ## Search filter bridge (`handleSearch`) -/

/-- a parsed `/search/` response body: `ok` plus the per-item `metadata?.id`
values (`none` when the metadata or its `id` field is missing). -/
structure SearchBody where
  ok : Bool
  photos : List (Option String)
deriving Repr, DecidableEq

/-- the network outcome of one `handleSearch` call: `netError` when the fetch
or `response.json()` threw, otherwise the parsed body. -/
inductive SearchOutcome
  | netError
  | parsed (body : SearchBody)
deriving Repr, DecidableEq

/-- `data.photos.map((photo) => photo.metadata?.id).filter((id) => !!id)` —
missing ids and the falsy empty string are dropped. -/
def extractIds (items : List (Option String)) : List String :=
  (items.filterMap (fun x => x)).filter (fun id => id ≠ "")

/-- the `text.trim() === ""` test of `handleSearch`: the trimmed query is
empty exactly when every character of the query is whitespace. -/
def trimmedEmpty (text : String) : Bool :=
  text.data.all Char.isWhitespace

/-- `handleSearch`: returns the new filter and whether a network call was
made. An empty trimmed query resets the filter with no call; a thrown fetch
or parse error is caught and leaves the filter unchanged; a body with
`ok = false` also leaves it unchanged. -/
def handleSearch (text : String) (outcome : SearchOutcome)
    (filter : List String) : List String × Bool :=
  if trimmedEmpty text then ([], false)
  else
    match outcome with
    | .netError => (filter, true)
    | .parsed body => (if body.ok then extractIds body.photos else filter, true)

/-! ## Status polling (`pollUntilReady`) -/

/-- what one iteration of the poll loop observed: how long the fetch and JSON
parse took beyond the 3-second sleep, and `some (processed, total)` when the
status endpoint answered with a parsable body (`none` when the fetch or parse
threw and was caught). -/
structure PollStep where
  fetchMs : Nat
  result : Option (Nat × Nat)
deriving Repr, DecidableEq

/-- the `while (Date.now() < deadline)` loop of `pollUntilReady`, with fuel
driving the recursion. Each iteration sleeps 3000 ms, then fetches; the loop
returns `(true, n)` after `n` iterations when the status body satisfies
`total > 0 && processed >= total`, and `(false, n)` when the guard fails.
`none` means the fuel ran out with the loop still running; the termination
theorem shows fuel 41 is never exhausted. -/
def pollLoopF (env : Nat → PollStep) (deadline : Nat) :
    Nat → Nat → Nat → Option (Bool × Nat)
  | 0, _, now => if now < deadline then none else some (false, 0)
  | fuel + 1, k, now =>
    if now < deadline then
      let step := env k
      let now2 := now + 3000 + step.fetchMs
      match step.result with
      | some pt =>
        if 0 < pt.2 ∧ pt.2 ≤ pt.1 then some (true, 1)
        else (pollLoopF env deadline fuel (k + 1) now2).map (fun r => (r.1, r.2 + 1))
      | none => (pollLoopF env deadline fuel (k + 1) now2).map (fun r => (r.1, r.2 + 1))
    else some (false, 0)

/-- `pollUntilReady`: `maxWait = 120_000`, `interval = 3_000`, `deadline =
Date.now() + maxWait`. Fuel 41 is enough for the at most 40 iterations the
deadline allows. -/
def pollUntilReady (env : Nat → PollStep) (t0 : Nat) : Option (Bool × Nat) :=
  pollLoopF env (t0 + 120000) 41 0 t0

/-- whether the poll loop exited because the status endpoint reported all
items processed. -/
def pollCompleted (env : Nat → PollStep) (t0 : Nat) : Bool :=
  ((pollUntilReady env t0).map (fun r => r.1)).getD false

/-- how many iterations the poll loop ran. -/
def pollIterations (env : Nat → PollStep) (t0 : Nat) : Nat :=
  ((pollUntilReady env t0).map (fun r => r.2)).getD 0

/-! ## Indexing state machine (`loadAndIndex`, `loadMore`)

Every `setX` call produces a new observable state; a run is modelled as the
final state together with the trace of all observable states, starting with
the state at the beginning of the run. Within a batch, `Promise.all` runs the
three uploads concurrently; their `setPhotos` updaters touch pairwise
distinct `assetId`s, so applying them in batch order is the canonical
interleaving. -/

abbrev Trace := List ScreenState

/-- apply one `setX` update and record the resulting observable state. -/
def stepSt (f : ScreenState → ScreenState) :
    ScreenState × Trace → ScreenState × Trace
  | (s, tr) => (f s, tr ++ [f s])

/-- the batches of `for (let i = 0; i < toIndex.length; i += 3)` with
`batch = toIndex.slice(i, i + 3)` — the loop of `loadAndIndex` walks the
list in successive disjoint slices of three, the last slice holding the
remainder. -/
def batchesFor : List Asset → List (List Asset)
  | [] => []
  | [a] => [[a]]
  | [a, b] => [[a, b]]
  | a :: b :: c :: rest => [a, b, c] :: batchesFor rest

/-- the batches of `for (let i = prev; i < prev + INDEX_LIMIT; i += 3)` with
`batch = toIndex.slice(i, i + 3)` — the loop of `loadMore`, which starts its
slice index at `prev` rather than 0. -/
def loadMoreBatches (toIndex : List Asset) (prev : Nat) : List (List Asset) :=
  (List.range ((INDEX_LIMIT + 2) / 3)).map
    (fun k => (toIndex.drop (prev + 3 * k)).take 3)

/-- the `setPhotos` effect of one settled `uploadAsset` call. -/
def photoStep (outcomes : Asset → UploadOutcome) (a : Asset)
    (st : ScreenState) : ScreenState :=
  { st with photos := uploadAssetPhotos a (outcomes a) st.photos }

/-- `await Promise.all(batch.map(uploadAsset))`: every upload in the batch
settles, each success applying its `setPhotos` updater. -/
def runUploadBatch (outcomes : Asset → UploadOutcome) (batch : List Asset)
    (acc : ScreenState × Trace) : ScreenState × Trace :=
  batch.foldl (fun acc a => stepSt (photoStep outcomes a) acc) acc

/-- the batch loop of `loadAndIndex`: after each batch settles,
`setIndexDone((prev) => Math.min(prev + batch.length, toIndex.length))`. -/
def runBatchesCapped (outcomes : Asset → UploadOutcome) (cap : Nat)
    (batches : List (List Asset)) (acc : ScreenState × Trace) :
    ScreenState × Trace :=
  batches.foldl (fun acc batch =>
    stepSt (fun st => { st with indexDone := min (st.indexDone + batch.length) cap })
      (runUploadBatch outcomes batch acc)) acc

/-- the batch loop of `loadMore`: after each batch settles,
`setIndexDone((prev) => prev + batch.length)` — uncapped. -/
def runBatchesUncapped (outcomes : Asset → UploadOutcome)
    (batches : List (List Asset)) (acc : ScreenState × Trace) :
    ScreenState × Trace :=
  batches.foldl (fun acc batch =>
    stepSt (fun st => { st with indexDone := st.indexDone + batch.length })
      (runUploadBatch outcomes batch acc)) acc

/-- `loadAndIndex`, run from the mount-time state: permission check, asset
enumeration, clear, batched upload of the first `INDEX_LIMIT` assets,
reprocess trigger, status poll, ready. The clear and reprocess fetches are
try/caught and change no state either way; the poll result is awaited and
discarded. A denied permission short-circuits before anything else. -/
def loadAndIndex (permission : Bool) (assets : List Asset)
    (outcomes : Asset → UploadOutcome) (pollEnv : Nat → PollStep) (t0 : Nat) :
    ScreenState × Trace :=
  let s0 := initialState
  if permission then
    let acc := stepSt (fun st => { st with photos := assets.map mkPhoto }) (s0, [s0])
    let acc := stepSt (fun st => { st with loading := false }) acc
    let acc := stepSt (fun st => { st with stage := .clearing }) acc
    let acc := stepSt (fun st => { st with stage := .uploading }) acc
    let toIndex := assets.take INDEX_LIMIT
    let acc := stepSt (fun st => { st with indexTotal := toIndex.length }) acc
    let acc := runBatchesCapped outcomes toIndex.length (batchesFor toIndex) acc
    let acc := stepSt (fun st => { st with stage := .processing }) acc
    let _poll := pollUntilReady pollEnv t0
    stepSt (fun st => { st with stage := .ready }) acc
  else
    let acc := stepSt (fun st => { st with permissionDenied := true }) (s0, [s0])
    stepSt (fun st => { st with loading := false }) acc

/-- the `assets.slice(indexTotal, indexTotal + INDEX_LIMIT)` selection of
`loadMore`: the next index-limit-sized slice after those already counted. -/
def loadMoreToIndex (assets : List Asset) (prevTotal : Nat) : List Asset :=
  (assets.drop prevTotal).take INDEX_LIMIT

/-- the assets `loadMore` actually passes to `uploadAsset`: the concatenation
of the batches its loop slices out of `toIndex`. -/
def loadMoreAttempted (assets : List Asset) (prevTotal : Nat) : List Asset :=
  (loadMoreBatches (loadMoreToIndex assets prevTotal) prevTotal).flatten

/-- `loadMore`, run from the current state `s`: re-query the asset source
(wholesale photo replacement), grow `indexTotal` by the size of the new
slice, and run the upload loop. No `stage` change and no clearing. -/
def loadMore (assets : List Asset) (outcomes : Asset → UploadOutcome)
    (s : ScreenState) : ScreenState × Trace :=
  let prev := s.indexTotal
  let acc := stepSt (fun st => { st with photos := assets.map mkPhoto }) (s, [s])
  let toIndex := loadMoreToIndex assets prev
  let acc := stepSt (fun st => { st with indexTotal := st.indexTotal + toIndex.length }) acc
  runBatchesUncapped outcomes (loadMoreBatches toIndex prev) acc

/-! ## Photo-collection traces of upload sequences -/

/-- the sequence of photo collections observed while a list of assets is
driven through `uploadAsset` one settled call at a time (the photo-collection
projection of an indexing run's upload phase). -/
def uploadStates (outcomes : Asset → UploadOutcome) :
    List Asset → List LocalPhoto → List (List LocalPhoto)
  | [], photos => [photos]
  | a :: rest, photos =>
    photos :: uploadStates outcomes rest (uploadAssetPhotos a (outcomes a) photos)

/-- the accumulator of `loadAndIndex` (granted path) just before the batch
loop: photo list published, loading cleared, stage driven through `clearing`
to `uploading`, and `total` set to the size of the selected slice. -/
def loadAndIndexUploadAcc (assets : List Asset) : ScreenState × Trace :=
  stepSt (fun st => { st with indexTotal := (assets.take INDEX_LIMIT).length })
    (stepSt (fun st => { st with stage := .uploading })
      (stepSt (fun st => { st with stage := .clearing })
        (stepSt (fun st => { st with loading := false })
          (stepSt (fun st => { st with photos := assets.map mkPhoto })
            (initialState, [initialState])))))

/-- an accumulator is well formed when its state is the last recorded one,
the recorded `done` values never decrease, and `done` never exceeds `total`
in any recorded state. -/
def GoodAcc (acc : ScreenState × Trace) : Prop :=
  acc.2.getLast? = some acc.1
  ∧ acc.2.Chain' (fun a b => a.indexDone ≤ b.indexDone)
  ∧ ∀ x ∈ acc.2, x.indexDone ≤ x.indexTotal

/-! ## Concrete demonstration inputs -/

/-- a concrete device asset. -/
def demoAsset (n : Nat) : Asset :=
  { id := "a" ++ toString n, uri := "u" ++ toString n, filename := none }

/-- seven concrete local assets. -/
def demoAssets7 : List Asset := (List.range 7).map demoAsset

/-- twenty concrete local assets (same first seven). -/
def demoAssets20 : List Asset := (List.range 20).map demoAsset

/-- upload outcomes where every upload succeeds and the server assigns
`photo_id = "p-" ++ asset id`. -/
def demoOutcomes : Asset → UploadOutcome :=
  fun a => { infoResult := none, fetchResult := some (some ("p-" ++ a.id)) }

/-- a status endpoint that never answers (every poll iteration is caught). -/
def demoPollNone : Nat → PollStep :=
  fun _ => { fetchMs := 0, result := none }

/-- the screen state after the initial run over the seven demo assets. -/
def demoStateAfter7 : ScreenState :=
  (loadAndIndex true demoAssets7 demoOutcomes demoPollNone 0).1

/-- a concrete photo collection: one uploaded photo and one still pending. -/
def demoPhotos : List LocalPhoto :=
  [ { assetId := "a0", photoId := some "p1", uri := "u0" },
    { assetId := "a1", photoId := none, uri := "u1" } ]

/-! ## Helper lemmas -/

theorem stepSt_fst (f : ScreenState → ScreenState) (acc : ScreenState × Trace) :
    (stepSt f acc).1 = f acc.1 := by
  obtain ⟨s, tr⟩ := acc; rfl

theorem stepSt_snd (f : ScreenState → ScreenState) (acc : ScreenState × Trace) :
    (stepSt f acc).2 = acc.2 ++ [f acc.1] := by
  obtain ⟨s, tr⟩ := acc; rfl

/-! ### Claim C5 -/

/-- C5: for every asset and every network outcome (network error, per-asset
8-second timeout, non-success response, or malformed response body),
`uploadAsset` completes without throwing; a thrown/failed fetch leaves the
collection unchanged; when the response parses, the only effect is setting
the `photoId` of the photo matched by `assetId`, every photo at a position
with a different `assetId` being untouched; and when asset-info resolution
fails or times out (3-second race), the upload proceeds with the asset's
original uri. -/
theorem c5_uploadAsset_error_handling (asset : Asset) (out : UploadOutcome)
    (photos : List LocalPhoto) :
    (∃ ps, uploadAsset asset out photos = .ok ps)
    ∧ (out.fetchResult = none → uploadAsset asset out photos = .ok photos)
    ∧ (∀ pid, out.fetchResult = some pid →
        uploadAsset asset out photos = .ok (photos.map (fun p =>
          if p.assetId = asset.id then { p with photoId := pid } else p)))
    ∧ (∀ pid, out.fetchResult = some pid → ∀ (k : Nat) (p : LocalPhoto),
        photos[k]? = some p → p.assetId ≠ asset.id →
        ∀ ps, uploadAsset asset out photos = .ok ps → ps[k]? = some p)
    ∧ (out.infoResult = none →
        ∀ r, uploadAssetTry asset out photos = .ok r → r.2 = asset.uri) := by
  obtain ⟨info, fetch⟩ := out
  cases fetch with
  | none =>
    refine ⟨⟨photos, rfl⟩, fun _ => rfl, ?_, ?_, ?_⟩
    · intro pid h
      cases h
    · intro pid h
      cases h
    · intro _ r hr
      cases hr
  | some pid =>
    refine ⟨⟨_, rfl⟩, ?_, ?_, ?_, ?_⟩
    · intro h
      cases h
    · intro pid' h
      cases h
      rfl
    · intro pid' h k p hk hne ps hps
      cases h
      have h2 : (Except.ok (applyUploadResponse photos asset.id pid) :
          Except String (List LocalPhoto)) = .ok ps := hps
      cases h2
      simp [applyUploadResponse, List.getElem?_map, hk, hne]
    · intro hinfo r hr
      subst hinfo
      have h2 : (Except.ok (applyUploadResponse photos asset.id pid, asset.uri) :
          Except String (List LocalPhoto × String)) = .ok r := hr
      cases h2
      rfl

/-- witness for C5 at a concrete asset, outcome and collection. -/
theorem c5_witness :
    ({ infoResult := none, fetchResult := some (some "p9") } : UploadOutcome).fetchResult
        = some (some "p9")
    ∧ uploadAsset (demoAsset 1) { infoResult := none, fetchResult := some (some "p9") }
        demoPhotos
      = .ok (demoPhotos.map (fun p =>
          if p.assetId = (demoAsset 1).id then { p with photoId := some "p9" } else p)) := by
  refine ⟨rfl, ?_⟩
  exact (c5_uploadAsset_error_handling (demoAsset 1)
    { infoResult := none, fetchResult := some (some "p9") } demoPhotos).2.2.1
    (some "p9") rfl

/-! ### Claim C7 -/

/-- C7: the grid filter is a pure membership predicate: under a non-empty
filter the grid shows exactly the photos whose `photoId` is a member of the
filter set (an absent `photoId` never matches), and under an empty filter
all photos are shown. -/
theorem c7_grid_filter_membership (photos : List LocalPhoto)
    (filter : List String) :
    (filter ≠ [] → ∀ p, p ∈ filteredPhotos photos filter ↔
      p ∈ photos ∧ ∃ pid, p.photoId = some pid ∧ pid ∈ filter)
    ∧ (filter = [] → filteredPhotos photos filter = photos) := by
  constructor
  · intro hne p
    have hpos : 0 < filter.length := List.length_pos.mpr hne
    simp only [filteredPhotos, if_pos hpos, List.mem_filter]
    constructor
    · rintro ⟨hp, hm⟩
      refine ⟨hp, ?_⟩
      cases hpid : p.photoId with
      | none => rw [photoMatches, hpid] at hm; cases hm
      | some pid =>
        rw [photoMatches, hpid] at hm
        exact ⟨pid, rfl, by simpa using hm⟩
    · rintro ⟨hp, pid, hpid, hmem⟩
      exact ⟨hp, by simp [photoMatches, hpid, hmem]⟩
  · intro h
    subst h
    rfl

/-- witness for C7: a photo with an absent `photoId` is excluded under a
non-empty filter, and the uploaded one whose id is a member is shown. -/
theorem c7_witness :
    (["p1", "p3"] : List String) ≠ []
    ∧ (({ assetId := "a1", photoId := none, uri := "u1" } : LocalPhoto)
          ∈ filteredPhotos demoPhotos ["p1", "p3"] ↔
        ({ assetId := "a1", photoId := none, uri := "u1" } : LocalPhoto) ∈ demoPhotos
          ∧ ∃ pid, (none : Option String) = some pid ∧ pid ∈ (["p1", "p3"] : List String)) := by
  refine ⟨by decide, ?_⟩
  exact (c7_grid_filter_membership demoPhotos ["p1", "p3"]).1 (by decide)
    { assetId := "a1", photoId := none, uri := "u1" }

/-! ### Claim C8 -/

/-- C8: a query whose trimmed text is empty resets the filter to the empty
set with no network call, irrespective of the prior filter; a non-empty
query whose network call or response parsing fails is caught and leaves the
previous filter unchanged. -/
theorem c8_search_failure_semantics (text : String) (outcome : SearchOutcome)
    (filter : List String) :
    (trimmedEmpty text = true → handleSearch text outcome filter = ([], false))
    ∧ (trimmedEmpty text = false → outcome = .netError →
        handleSearch text outcome filter = (filter, true)) := by
  constructor
  · intro h
    simp [handleSearch, h]
  · intro h hout
    subst hout
    simp [handleSearch, h]

/-- witness for C8: a whitespace query clears a prior filter without a call,
and a failed search on a non-empty query preserves the prior filter. -/
theorem c8_witness :
    (trimmedEmpty "  " = true ∧ handleSearch "  " .netError ["p1"] = ([], false))
    ∧ (trimmedEmpty "dog" = false ∧ handleSearch "dog" .netError ["p1"] = (["p1"], true)) := by
  refine ⟨⟨by decide, ?_⟩, ⟨by decide, ?_⟩⟩
  · exact (c8_search_failure_semantics "  " .netError ["p1"]).1 (by decide)
  · exact (c8_search_failure_semantics "dog" .netError ["p1"]).2 (by decide) rfl

/-! ### Claim C10 -/

/-- C10: a successful search response (`ok = true`) whose extracted
identifier list is empty replaces the filter with the empty set, and the
grid treats the empty filter as no filter, showing all photos. -/
theorem c10_empty_result_unfilters (text : String) (body : SearchBody)
    (filter : List String) (photos : List LocalPhoto) :
    trimmedEmpty text = false → body.ok = true → extractIds body.photos = [] →
    handleSearch text (.parsed body) filter = ([], true)
    ∧ filteredPhotos photos [] = photos := by
  intro ht hok hids
  constructor
  · simp [handleSearch, ht, hok, hids]
  · rfl

/-- witness for C10: a query matching nothing leaves the grid unfiltered. -/
theorem c10_witness :
    trimmedEmpty "dog" = false
    ∧ ({ ok := true, photos := [none, some ""] } : SearchBody).ok = true
    ∧ extractIds ([none, some ""] : List (Option String)) = []
    ∧ handleSearch "dog" (.parsed { ok := true, photos := [none, some ""] }) ["p1"]
        = ([], true)
    ∧ filteredPhotos demoPhotos [] = demoPhotos := by
  refine ⟨by decide, rfl, by decide, ?_, ?_⟩
  · exact (c10_empty_result_unfilters "dog" { ok := true, photos := [none, some ""] }
      ["p1"] demoPhotos (by decide) rfl (by decide)).1
  · exact (c10_empty_result_unfilters "dog" { ok := true, photos := [none, some ""] }
      ["p1"] demoPhotos (by decide) rfl (by decide)).2

/-! ### Claim C9 -/

/-- with any fuel covering the remaining time budget, the poll loop returns,
and its iteration count is bounded by the budget: each iteration needs
`now < deadline` on entry and advances `now` by at least the 3000 ms sleep. -/
theorem pollLoopF_total (env : Nat → PollStep) :
    ∀ (fuel k now deadline : Nat), deadline - now ≤ 3000 * fuel →
      ∃ c i, pollLoopF env deadline fuel k now = some (c, i) ∧
        3000 * i ≤ (deadline - now) + 2999 := by
  intro fuel
  induction fuel with
  | zero =>
    intro k now deadline h
    have hge : ¬ now < deadline := by omega
    exact ⟨false, 0, by simp [pollLoopF, hge], by omega⟩
  | succ fuel ih =>
    intro k now deadline h
    by_cases hlt : now < deadline
    · cases hres : (env k).result with
      | some pt =>
        by_cases hdone : 0 < pt.2 ∧ pt.2 ≤ pt.1
        · exact ⟨true, 1, by simp [pollLoopF, hlt, hres, hdone], by omega⟩
        · obtain ⟨c, i, heq, hb⟩ :=
            ih (k + 1) (now + 3000 + (env k).fetchMs) deadline (by omega)
          exact ⟨c, i + 1, by simp [pollLoopF, hlt, hres, hdone, heq], by omega⟩
      | none =>
        obtain ⟨c, i, heq, hb⟩ :=
          ih (k + 1) (now + 3000 + (env k).fetchMs) deadline (by omega)
        exact ⟨c, i + 1, by simp [pollLoopF, hlt, hres, heq], by omega⟩
    · exact ⟨false, 0, by simp [pollLoopF, hlt], by omega⟩

/-- when the status endpoint never produces a parsable answer, the loop can
only exit through the deadline guard, reporting non-completion. -/
theorem pollLoopF_never_completes (env : Nat → PollStep)
    (hnone : ∀ k, (env k).result = none) :
    ∀ (fuel k now deadline : Nat) (c : Bool) (i : Nat),
      pollLoopF env deadline fuel k now = some (c, i) → c = false := by
  intro fuel
  induction fuel with
  | zero =>
    intro k now deadline c i h
    by_cases hlt : now < deadline
    · simp [pollLoopF, hlt] at h
    · simp [pollLoopF, hlt] at h
      exact h.1
  | succ fuel ih =>
    intro k now deadline c i h
    by_cases hlt : now < deadline
    · simp only [pollLoopF, if_pos hlt, hnone k, Option.map_eq_some'] at h
      obtain ⟨r, hr, hri⟩ := h
      have : c = r.1 := by
        have := congrArg Prod.fst hri
        simpa using this.symm
      rw [this]
      exact ih (k + 1) (now + 3000 + (env k).fetchMs) deadline r.1 r.2
        (by rw [← hr])
    · simp [pollLoopF, hlt] at h
      exact h.1

/-- C9: the status-poll loop (3-second interval, 2-minute ceiling) always
terminates, within at most 40 iterations — the most that can start before
the deadline — even when the endpoint never reports completion (in which
case it exits not-completed); and `loadAndIndex` then advances the stage to
`ready` regardless of the poll outcome, rather than staying in
`processing`. -/
theorem c9_poll_deadline_then_ready (env : Nat → PollStep) (t0 : Nat)
    (assets : List Asset) (outcomes : Asset → UploadOutcome) :
    (∃ c i, pollUntilReady env t0 = some (c, i))
    ∧ pollIterations env t0 ≤ 40
    ∧ ((∀ k, (env k).result = none) → pollCompleted env t0 = false)
    ∧ (loadAndIndex true assets outcomes env t0).1.stage = .ready := by
  obtain ⟨c, i, heq, hb⟩ :=
    pollLoopF_total env 41 0 t0 (t0 + 120000) (by omega)
  refine ⟨⟨c, i, heq⟩, ?_, ?_, ?_⟩
  · simp only [pollIterations, pollUntilReady, heq, Option.map_some', Option.getD_some]
    omega
  · intro hnone
    have hc := pollLoopF_never_completes env hnone 41 0 t0 (t0 + 120000) c i heq
    simp [pollCompleted, pollUntilReady, heq, hc]
  · simp only [loadAndIndex, if_true]
    rw [stepSt_fst]

/-- witness for C9: a status endpoint that never answers still lets the run
reach `ready`, with the poll exiting not-completed after 40 iterations. -/
theorem c9_witness :
    (∃ c i, pollUntilReady demoPollNone 0 = some (c, i))
    ∧ pollIterations demoPollNone 0 ≤ 40
    ∧ pollCompleted demoPollNone 0 = false
    ∧ (loadAndIndex true demoAssets7 demoOutcomes demoPollNone 0).1.stage = .ready := by
  have h := c9_poll_deadline_then_ready demoPollNone 0 demoAssets7 demoOutcomes
  exact ⟨h.1, h.2.1, h.2.2.1 (fun k => rfl), h.2.2.2⟩

/-! ### Claim C1 -/

/-- C1: an initial indexing run over exactly 7 local assets with index limit
30 selects all 7 assets (in order, as the concatenation of the batches),
uploads them in strictly sequential batches of sizes 3, 3, 1, sets `total`
to 7, drives `done` through 0, 3, 6, 7 — one advance per settled batch —
and ends with the stage at `ready`. -/
theorem c1_initial_run_seven_assets (assets : List Asset)
    (outcomes : Asset → UploadOutcome) (pollEnv : Nat → PollStep) (t0 : Nat)
    (h7 : assets.length = 7) :
    assets.take INDEX_LIMIT = assets
    ∧ (batchesFor (assets.take INDEX_LIMIT)).flatten = assets
    ∧ (batchesFor (assets.take INDEX_LIMIT)).map List.length = [3, 3, 1]
    ∧ (loadAndIndex true assets outcomes pollEnv t0).1.indexTotal = 7
    ∧ ((loadAndIndex true assets outcomes pollEnv t0).2.map
        (fun st => st.indexDone)).destutter (· ≠ ·) = [0, 3, 6, 7]
    ∧ (loadAndIndex true assets outcomes pollEnv t0).1.stage = .ready := by
  rcases assets with _ | ⟨a1, _ | ⟨a2, _ | ⟨a3, _ | ⟨a4, _ | ⟨a5, _ | ⟨a6, _ |
    ⟨a7, _ | ⟨a8, rest⟩⟩⟩⟩⟩⟩⟩⟩ <;>
      try (exfalso; simp only [List.length_cons, List.length_nil] at h7; omega)
  refine ⟨rfl, rfl, rfl, rfl, ?_, rfl⟩
  simp only [loadAndIndex, batchesFor, stepSt, runBatchesCapped, runUploadBatch,
    photoStep, initialState, List.foldl_cons, List.foldl_nil, if_true, List.take,
    List.map_append, List.map_cons, List.map_nil, List.append_assoc,
    List.length_cons, List.length_nil]
  decide

/-- the granted path of `loadAndIndex` decomposed: prefix, batch loop, and
the two final stage transitions. -/
theorem loadAndIndex_true_eq (assets : List Asset)
    (outcomes : Asset → UploadOutcome) (pollEnv : Nat → PollStep) (t0 : Nat) :
    loadAndIndex true assets outcomes pollEnv t0
      = stepSt (fun st => { st with stage := .ready })
          (stepSt (fun st => { st with stage := .processing })
            (runBatchesCapped outcomes (assets.take INDEX_LIMIT).length
              (batchesFor (assets.take INDEX_LIMIT))
              (loadAndIndexUploadAcc assets))) := rfl

/-- the prefix accumulator written out state by state. -/
theorem loadAndIndexUploadAcc_eq (assets : List Asset) :
    loadAndIndexUploadAcc assets =
      ({ photos := assets.map mkPhoto, loading := false, permissionDenied := false,
         indexDone := 0, indexTotal := (assets.take INDEX_LIMIT).length,
         stage := .uploading, filter := [] },
       [ initialState,
         { photos := assets.map mkPhoto, loading := true, permissionDenied := false,
           indexDone := 0, indexTotal := 0, stage := .idle, filter := [] },
         { photos := assets.map mkPhoto, loading := false, permissionDenied := false,
           indexDone := 0, indexTotal := 0, stage := .idle, filter := [] },
         { photos := assets.map mkPhoto, loading := false, permissionDenied := false,
           indexDone := 0, indexTotal := 0, stage := .clearing, filter := [] },
         { photos := assets.map mkPhoto, loading := false, permissionDenied := false,
           indexDone := 0, indexTotal := 0, stage := .uploading, filter := [] },
         { photos := assets.map mkPhoto, loading := false, permissionDenied := false,
           indexDone := 0, indexTotal := (assets.take INDEX_LIMIT).length,
           stage := .uploading, filter := [] } ]) := rfl

theorem runUploadBatch_cons (outcomes : Asset → UploadOutcome) (a : Asset)
    (batch : List Asset) (acc : ScreenState × Trace) :
    runUploadBatch outcomes (a :: batch) acc
      = runUploadBatch outcomes batch (stepSt (photoStep outcomes a) acc) := by
  simp [runUploadBatch]

/-- the settled uploads of a batch change neither the counters nor the
stage of the current state. -/
theorem runUploadBatch_fst (outcomes : Asset → UploadOutcome) :
    ∀ (batch : List Asset) (acc : ScreenState × Trace),
      (runUploadBatch outcomes batch acc).1.indexDone = acc.1.indexDone
      ∧ (runUploadBatch outcomes batch acc).1.indexTotal = acc.1.indexTotal
      ∧ (runUploadBatch outcomes batch acc).1.stage = acc.1.stage := by
  intro batch
  induction batch with
  | nil => intro acc; exact ⟨rfl, rfl, rfl⟩
  | cons a rest ih =>
    intro acc
    rw [runUploadBatch_cons]
    obtain ⟨h1, h2, h3⟩ := ih (stepSt (photoStep outcomes a) acc)
    rw [h1, h2, h3, stepSt_fst]
    exact ⟨rfl, rfl, rfl⟩

/-- a batch only appends states, and every appended state carries the same
counters and stage as the state at the batch's start. -/
theorem runUploadBatch_snd (outcomes : Asset → UploadOutcome) :
    ∀ (batch : List Asset) (acc : ScreenState × Trace),
      ∃ ext, (runUploadBatch outcomes batch acc).2 = acc.2 ++ ext ∧
        ∀ x ∈ ext, x.indexDone = acc.1.indexDone
          ∧ x.indexTotal = acc.1.indexTotal ∧ x.stage = acc.1.stage := by
  intro batch
  induction batch with
  | nil =>
    intro acc
    exact ⟨[], by simp [runUploadBatch], by intro x hx; cases hx⟩
  | cons a rest ih =>
    intro acc
    rw [runUploadBatch_cons]
    obtain ⟨ext, hext, hprops⟩ := ih (stepSt (photoStep outcomes a) acc)
    refine ⟨photoStep outcomes a acc.1 :: ext, ?_, ?_⟩
    · rw [hext, stepSt_snd]
      simp
    · intro x hx
      rcases List.mem_cons.mp hx with h | h
      · subst h
        exact ⟨rfl, rfl, rfl⟩
      · obtain ⟨h1, h2, h3⟩ := hprops x h
        rw [stepSt_fst] at h1 h2 h3
        exact ⟨h1, h2, h3⟩

theorem runBatchesCapped_cons (outcomes : Asset → UploadOutcome) (cap : Nat)
    (batch : List Asset) (batches : List (List Asset))
    (acc : ScreenState × Trace) :
    runBatchesCapped outcomes cap (batch :: batches) acc
      = runBatchesCapped outcomes cap batches
          (stepSt (fun st => { st with indexDone := min (st.indexDone + batch.length) cap })
            (runUploadBatch outcomes batch acc)) := by
  simp [runBatchesCapped]

/-- the batch loop leaves the stage and the total untouched. -/
theorem runBatchesCapped_fst (outcomes : Asset → UploadOutcome) (cap : Nat) :
    ∀ (batches : List (List Asset)) (acc : ScreenState × Trace),
      (runBatchesCapped outcomes cap batches acc).1.stage = acc.1.stage
      ∧ (runBatchesCapped outcomes cap batches acc).1.indexTotal = acc.1.indexTotal := by
  intro batches
  induction batches with
  | nil => intro acc; exact ⟨rfl, rfl⟩
  | cons batch rest ih =>
    intro acc
    rw [runBatchesCapped_cons]
    obtain ⟨h1, h2⟩ := ih _
    rw [h1, h2, stepSt_fst]
    obtain ⟨_, hb2, hb3⟩ := runUploadBatch_fst outcomes batch acc
    exact ⟨hb3, hb2⟩

/-- the batch loop only appends states, all carrying the stage the loop was
entered with. -/
theorem runBatchesCapped_snd_stage (outcomes : Asset → UploadOutcome) (cap : Nat) :
    ∀ (batches : List (List Asset)) (acc : ScreenState × Trace),
      ∃ ext, (runBatchesCapped outcomes cap batches acc).2 = acc.2 ++ ext ∧
        ∀ x ∈ ext, x.stage = acc.1.stage := by
  intro batches
  induction batches with
  | nil =>
    intro acc
    exact ⟨[], by simp [runBatchesCapped], by intro x hx; cases hx⟩
  | cons batch rest ih =>
    intro acc
    rw [runBatchesCapped_cons]
    set mid := stepSt
      (fun st => { st with indexDone := min (st.indexDone + batch.length) cap })
      (runUploadBatch outcomes batch acc) with hmid
    obtain ⟨ext2, hext2, hst2⟩ := ih mid
    obtain ⟨ext1, hext1, hst1⟩ := runUploadBatch_snd outcomes batch acc
    obtain ⟨_, _, hstb⟩ := runUploadBatch_fst outcomes batch acc
    refine ⟨ext1 ++
      ({ (runUploadBatch outcomes batch acc).1 with
          indexDone := min ((runUploadBatch outcomes batch acc).1.indexDone + batch.length) cap } :: ext2),
      ?_, ?_⟩
    · rw [hext2, hmid, stepSt_snd, hext1]
      simp
    · intro x hx
      rcases List.mem_append.mp hx with h | h
      · exact (hst1 x h).2.2
      · rcases List.mem_cons.mp h with h | h
        · subst h
          exact hstb
        · have := hst2 x h
          rw [hmid, stepSt_fst] at this
          rw [this]
          exact hstb

/-- collapsing a run of `uploading` states before the final transitions. -/
theorem destutter_upl_run (n : Nat) :
    List.destutter' (· ≠ ·) Stage.uploading
      (List.replicate n Stage.uploading ++ [Stage.processing, Stage.ready])
    = [Stage.uploading, Stage.processing, Stage.ready] := by
  induction n with
  | zero => decide
  | succ n ih =>
    rw [List.replicate_succ, List.cons_append, List.destutter'_cons,
      if_neg (by simp)]
    exact ih

/-- the destuttered stage sequence of a granted run. -/
theorem destutter_stage_run (n : Nat) :
    List.destutter (· ≠ ·) (Stage.idle :: Stage.idle :: Stage.idle ::
      Stage.clearing :: Stage.uploading :: Stage.uploading ::
      (List.replicate n Stage.uploading ++ [Stage.processing, Stage.ready]))
    = [Stage.idle, Stage.clearing, Stage.uploading, Stage.processing, Stage.ready] := by
  rw [List.destutter_cons', List.destutter'_cons, if_neg (by simp),
    List.destutter'_cons, if_neg (by simp),
    List.destutter'_cons, if_pos (by decide),
    List.destutter'_cons, if_pos (by decide),
    List.destutter'_cons, if_neg (by simp)]
  rw [destutter_upl_run]

/-! ### Claim C2 -/

/-- C2: within a single run the stage visits `idle`, `clearing`,
`uploading`, `processing`, `ready` in that strict forward order with no
state skipped and no backward transition (the destuttered stage sequence of
the trace is exactly that list); and when photo-library access is denied the
run short-circuits before `clearing`, the stage staying `idle` while the
permission-denied state is surfaced. -/
theorem c2_stage_forward_order (assets : List Asset)
    (outcomes : Asset → UploadOutcome) (pollEnv : Nat → PollStep) (t0 : Nat) :
    ((loadAndIndex true assets outcomes pollEnv t0).2.map
        (fun st => st.stage)).destutter (· ≠ ·)
      = [.idle, .clearing, .uploading, .processing, .ready]
    ∧ ((loadAndIndex false assets outcomes pollEnv t0).2.map
        (fun st => st.stage)).destutter (· ≠ ·) = [.idle]
    ∧ (loadAndIndex false assets outcomes pollEnv t0).1.stage = .idle
    ∧ (loadAndIndex false assets outcomes pollEnv t0).1.permissionDenied = true := by
  refine ⟨?_, rfl, rfl, rfl⟩
  rw [loadAndIndex_true_eq]
  obtain ⟨ext, hext, hst⟩ := runBatchesCapped_snd_stage outcomes
    (assets.take INDEX_LIMIT).length (batchesFor (assets.take INDEX_LIMIT))
    (loadAndIndexUploadAcc assets)
  obtain ⟨hfst, -⟩ := runBatchesCapped_fst outcomes
    (assets.take INDEX_LIMIT).length (batchesFor (assets.take INDEX_LIMIT))
    (loadAndIndexUploadAcc assets)
  rw [stepSt_snd, stepSt_snd, stepSt_fst, hext]
  have hmap : ext.map (fun st => st.stage)
      = List.replicate ext.length Stage.uploading := by
    have hlen : (ext.map (fun st => st.stage)).length = ext.length := by
      simp
    rw [← hlen]
    refine List.eq_replicate_of_mem ?_
    intro b hb
    obtain ⟨x, hx, hxb⟩ := List.mem_map.mp hb
    rw [← hxb, hst x hx, loadAndIndexUploadAcc_eq]
  rw [loadAndIndexUploadAcc_eq] at hext hst hfst ⊢
  simp only [List.map_append, List.map_cons, List.map_nil, List.append_assoc,
    List.cons_append, List.nil_append, hmap, hfst]
  exact destutter_stage_run ext.length

theorem mem_of_getLast?_acc {l : List ScreenState} {a : ScreenState}
    (h : l.getLast? = some a) : a ∈ l :=
  List.mem_of_mem_getLast? (by simp [h])

theorem GoodAcc.self_le {acc : ScreenState × Trace} (hG : GoodAcc acc) :
    acc.1.indexDone ≤ acc.1.indexTotal :=
  hG.2.2 acc.1 (mem_of_getLast?_acc hG.1)

/-- recording one more state preserves well-formedness as long as the new
state does not decrease `done` and keeps `done` within `total`. -/
theorem stepSt_good {f : ScreenState → ScreenState} {acc : ScreenState × Trace}
    (hG : GoodAcc acc)
    (h1 : acc.1.indexDone ≤ (f acc.1).indexDone)
    (h2 : (f acc.1).indexDone ≤ (f acc.1).indexTotal) :
    GoodAcc (stepSt f acc) := by
  obtain ⟨s, tr⟩ := acc
  obtain ⟨hlast, hchain, hbound⟩ := hG
  refine ⟨?_, ?_, ?_⟩
  · simp [stepSt]
  · show (tr ++ [f s]).Chain' _
    rw [List.chain'_append]
    refine ⟨hchain, List.chain'_singleton _, ?_⟩
    intro x hx y hy
    rw [hlast] at hx
    simp only [Option.mem_def, Option.some.injEq] at hx
    simp only [List.head?_cons, Option.mem_def, Option.some.injEq] at hy
    subst hx
    subst hy
    exact h1
  · intro x hx
    rcases List.mem_append.mp hx with h | h
    · exact hbound x h
    · simp only [List.mem_singleton] at h
      subst h
      exact h2

/-- settled uploads only touch the photo collection, so they preserve
well-formedness. -/
theorem runUploadBatch_good (outcomes : Asset → UploadOutcome) :
    ∀ (batch : List Asset) (acc : ScreenState × Trace),
      GoodAcc acc → GoodAcc (runUploadBatch outcomes batch acc) := by
  intro batch
  induction batch with
  | nil => intro acc hG; exact hG
  | cons a rest ih =>
    intro acc hG
    rw [runUploadBatch_cons]
    refine ih _ (stepSt_good hG ?_ ?_)
    · exact Nat.le_refl _
    · exact hG.self_le

/-- the capped batch loop of `loadAndIndex` preserves well-formedness when
entered with `total` already set to the cap. -/
theorem runBatchesCapped_good (outcomes : Asset → UploadOutcome) (cap : Nat) :
    ∀ (batches : List (List Asset)) (acc : ScreenState × Trace),
      GoodAcc acc → acc.1.indexTotal = cap →
      GoodAcc (runBatchesCapped outcomes cap batches acc) := by
  intro batches
  induction batches with
  | nil => intro acc hG _; exact hG
  | cons batch rest ih =>
    intro acc hG htot
    rw [runBatchesCapped_cons]
    obtain ⟨hd, ht, _⟩ := runUploadBatch_fst outcomes batch acc
    have hG1 : GoodAcc (runUploadBatch outcomes batch acc) :=
      runUploadBatch_good outcomes batch acc hG
    have hcap : (runUploadBatch outcomes batch acc).1.indexTotal = cap := by
      rw [ht, htot]
    refine ih _ (stepSt_good hG1 ?_ ?_) ?_
    · refine Nat.le_min.mpr ⟨Nat.le_add_right _ _, ?_⟩
      calc (runUploadBatch outcomes batch acc).1.indexDone
          ≤ (runUploadBatch outcomes batch acc).1.indexTotal := hG1.self_le
        _ = cap := hcap
    · show min _ cap ≤ (runUploadBatch outcomes batch acc).1.indexTotal
      rw [hcap]
      exact Nat.min_le_right _ _
    · rw [stepSt_fst]
      exact hcap

/-- the uncapped batch loop of `loadMore` preserves well-formedness when the
remaining batches fit in the budget `total - done`. -/
theorem runBatchesUncapped_good (outcomes : Asset → UploadOutcome) :
    ∀ (batches : List (List Asset)) (acc : ScreenState × Trace),
      GoodAcc acc →
      acc.1.indexDone + (batches.map List.length).sum ≤ acc.1.indexTotal →
      GoodAcc (runBatchesUncapped outcomes batches acc) := by
  intro batches
  induction batches with
  | nil => intro acc hG _; exact hG
  | cons batch rest ih =>
    intro acc hG hbudget
    have hb : runBatchesUncapped outcomes (batch :: rest) acc
        = runBatchesUncapped outcomes rest
            (stepSt (fun st => { st with indexDone := st.indexDone + batch.length })
              (runUploadBatch outcomes batch acc)) := by
      simp [runBatchesUncapped]
    rw [hb]
    obtain ⟨hd, ht, _⟩ := runUploadBatch_fst outcomes batch acc
    have hG1 : GoodAcc (runUploadBatch outcomes batch acc) :=
      runUploadBatch_good outcomes batch acc hG
    simp only [List.map_cons, List.sum_cons] at hbudget
    refine ih _ (stepSt_good hG1 ?_ ?_) ?_
    · exact Nat.le_add_right _ _
    · show _ + batch.length ≤ (runUploadBatch outcomes batch acc).1.indexTotal
      rw [hd, ht]
      omega
    · rw [stepSt_fst]
      show _ + batch.length + _ ≤ (runUploadBatch outcomes batch acc).1.indexTotal
      rw [hd, ht]
      omega

/-- the total length of the slices `toIndex.slice(p + 3k, p + 3k + 3)` for
`k = 0, 1, ...` is at most the part of `toIndex` from position `p` on. -/
theorem sliceSum {α : Type} :
    ∀ (m p : Nat) (l : List α),
      (((List.range m).map
        (fun k => ((l.drop (p + 3 * k)).take 3).length)).sum) ≤ l.length - p := by
  intro m
  induction m with
  | zero => intro p l; simp
  | succ m ih =>
    intro p l
    rw [List.range_succ_eq_map, List.map_cons, List.sum_cons, List.map_map]
    have hcomp : ((fun k => ((l.drop (p + 3 * k)).take 3).length) ∘ Nat.succ)
        = fun k => ((l.drop ((p + 3) + 3 * k)).take 3).length := by
      funext k
      have : p + 3 * (k + 1) = (p + 3) + 3 * k := by omega
      simp [Function.comp, Nat.succ_eq_add_one, this]
    rw [hcomp]
    have hih := ih (p + 3) l
    have hlen : ((l.drop (p + 3 * 0)).take 3).length = min 3 (l.length - p) := by
      simp [List.length_take, List.length_drop]
    rw [hlen]
    rcases Nat.le_total 3 (l.length - p) with h | h
    · rw [min_eq_left h]
      omega
    · rw [min_eq_right h]
      omega

/-! ### Claim C4 -/

/-- C4: in every indexing run — the initial `loadAndIndex` under either
permission outcome, and every `loadMore` started from a state whose counters
are consistent — the recorded `done` values are monotonically non-decreasing
along the whole trace of observable states, `done` never exceeds `total` in
any observable state, and `done` only changes at the batch-settlement
updates (the only `done` writes in the model). -/
theorem c4_done_monotone_bounded (permission : Bool)
    (assets moreAssets : List Asset) (outcomes : Asset → UploadOutcome)
    (pollEnv : Nat → PollStep) (t0 : Nat) (s : ScreenState) :
    ((loadAndIndex permission assets outcomes pollEnv t0).2.Chain'
        (fun a b => a.indexDone ≤ b.indexDone)
      ∧ ∀ x ∈ (loadAndIndex permission assets outcomes pollEnv t0).2,
          x.indexDone ≤ x.indexTotal)
    ∧ (s.indexDone ≤ s.indexTotal →
        (loadMore moreAssets outcomes s).2.Chain'
          (fun a b => a.indexDone ≤ b.indexDone)
        ∧ ∀ x ∈ (loadMore moreAssets outcomes s).2,
            x.indexDone ≤ x.indexTotal) := by
  constructor
  · cases permission with
    | false =>
      constructor
      · show List.Chain' _ [initialState, _, _]
        refine List.chain'_cons.mpr ⟨Nat.le_refl 0, ?_⟩
        exact List.chain'_cons.mpr ⟨Nat.le_refl 0, List.chain'_singleton _⟩
      · intro x hx
        rcases List.mem_cons.mp hx with h | hx
        · subst h; exact Nat.le_refl 0
        rcases List.mem_cons.mp hx with h | hx
        · subst h; exact Nat.le_refl 0
        rcases List.mem_cons.mp hx with h | hx
        · subst h; exact Nat.le_refl 0
        · cases hx
    | true =>
      have hGpre : GoodAcc (loadAndIndexUploadAcc assets) := by
        rw [loadAndIndexUploadAcc_eq]
        refine ⟨rfl, ?_, ?_⟩
        · refine List.chain'_cons.mpr ⟨Nat.le_refl 0, ?_⟩
          refine List.chain'_cons.mpr ⟨Nat.le_refl 0, ?_⟩
          refine List.chain'_cons.mpr ⟨Nat.le_refl 0, ?_⟩
          refine List.chain'_cons.mpr ⟨Nat.le_refl 0, ?_⟩
          exact List.chain'_cons.mpr ⟨Nat.le_refl 0, List.chain'_singleton _⟩
        · intro x hx
          simp only [List.mem_cons, List.not_mem_nil, or_false] at hx
          rcases hx with h | h | h | h | h | h <;> (subst h; exact Nat.zero_le _)
      have hGb : GoodAcc (runBatchesCapped outcomes
          (assets.take INDEX_LIMIT).length (batchesFor (assets.take INDEX_LIMIT))
          (loadAndIndexUploadAcc assets)) := by
        refine runBatchesCapped_good outcomes _ _ _ hGpre ?_
        rw [loadAndIndexUploadAcc_eq]
      have hGp : GoodAcc (stepSt (fun st => { st with stage := .processing })
          (runBatchesCapped outcomes (assets.take INDEX_LIMIT).length
            (batchesFor (assets.take INDEX_LIMIT)) (loadAndIndexUploadAcc assets))) :=
        stepSt_good (f := fun st => { st with stage := .processing }) hGb
          (Nat.le_refl _) hGb.self_le
      have hGr := stepSt_good (f := fun st => { st with stage := .ready }) hGp
        (Nat.le_refl _) hGp.self_le
      rw [loadAndIndex_true_eq]
      exact ⟨hGr.2.1, hGr.2.2⟩
  · intro hs
    have hG0 : GoodAcc (s, [s]) := by
      refine ⟨rfl, List.chain'_singleton _, ?_⟩
      intro x hx
      simp only [List.mem_singleton] at hx
      subst hx
      exact hs
    have hG1 : GoodAcc (stepSt (fun st => { st with photos := moreAssets.map mkPhoto })
        (s, [s])) :=
      stepSt_good hG0 (Nat.le_refl _) hG0.self_le
    have hG2 : GoodAcc (stepSt (fun st =>
        { st with indexTotal := st.indexTotal
            + (loadMoreToIndex moreAssets s.indexTotal).length })
        (stepSt (fun st => { st with photos := moreAssets.map mkPhoto }) (s, [s]))) := by
      refine stepSt_good hG1 (Nat.le_refl _) ?_
      calc _ ≤ s.indexTotal := hG1.self_le
        _ ≤ _ + (loadMoreToIndex moreAssets s.indexTotal).length := Nat.le_add_right _ _
    have hsum : ((loadMoreBatches (loadMoreToIndex moreAssets s.indexTotal)
        s.indexTotal).map List.length).sum
        ≤ (loadMoreToIndex moreAssets s.indexTotal).length := by
      rw [loadMoreBatches, List.map_map]
      calc (((List.range ((INDEX_LIMIT + 2) / 3)).map
            (List.length ∘ fun k =>
              ((loadMoreToIndex moreAssets s.indexTotal).drop (s.indexTotal + 3 * k)).take 3)).sum)
          ≤ (loadMoreToIndex moreAssets s.indexTotal).length - s.indexTotal :=
            sliceSum ((INDEX_LIMIT + 2) / 3) s.indexTotal _
        _ ≤ (loadMoreToIndex moreAssets s.indexTotal).length := Nat.sub_le _ _
    have hGfin : GoodAcc (loadMore moreAssets outcomes s) := by
      show GoodAcc (runBatchesUncapped outcomes _ _)
      refine runBatchesUncapped_good outcomes _ _ hG2 ?_
      rw [stepSt_fst, stepSt_fst]
      show s.indexDone + _ ≤ s.indexTotal + _
      omega
    exact ⟨hGfin.2.1, hGfin.2.2⟩

/-- witness for C4: the counters behave along a concrete initial run and a
concrete `loadMore` started from its final state. -/
theorem c4_witness :
    ((loadAndIndex true demoAssets7 demoOutcomes demoPollNone 0).2.Chain'
        (fun a b => a.indexDone ≤ b.indexDone)
      ∧ ∀ x ∈ (loadAndIndex true demoAssets7 demoOutcomes demoPollNone 0).2,
          x.indexDone ≤ x.indexTotal)
    ∧ (demoStateAfter7.indexDone ≤ demoStateAfter7.indexTotal
      ∧ (loadMore demoAssets20 demoOutcomes demoStateAfter7).2.Chain'
          (fun a b => a.indexDone ≤ b.indexDone)
      ∧ ∀ x ∈ (loadMore demoAssets20 demoOutcomes demoStateAfter7).2,
          x.indexDone ≤ x.indexTotal) := by
  have h := c4_done_monotone_bounded true demoAssets7 demoAssets20 demoOutcomes
    demoPollNone 0 demoStateAfter7
  have hle : demoStateAfter7.indexDone ≤ demoStateAfter7.indexTotal := by decide
  exact ⟨h.1, hle, (h.2 hle).1, (h.2 hle).2⟩

/-- witness for C1 at seven concrete assets and all-success outcomes. -/
theorem c1_witness :
    demoAssets7.length = 7
    ∧ (loadAndIndex true demoAssets7 demoOutcomes demoPollNone 0).1.indexTotal = 7
    ∧ ((loadAndIndex true demoAssets7 demoOutcomes demoPollNone 0).2.map
        (fun st => st.indexDone)).destutter (· ≠ ·) = [0, 3, 6, 7]
    ∧ (loadAndIndex true demoAssets7 demoOutcomes demoPollNone 0).1.stage = .ready := by
  have h := c1_initial_run_seven_assets demoAssets7 demoOutcomes demoPollNone 0
    (by decide)
  exact ⟨by decide, h.2.2.2.1, h.2.2.2.2.1, h.2.2.2.2.2⟩

/-! ### Claim C6 -/

theorem mem_of_getElem?_list {α : Type} {l : List α} {n : Nat} {a : α}
    (h : l[n]? = some a) : a ∈ l := by
  obtain ⟨hlt, hr⟩ := List.getElem?_eq_some.mp h
  exact hr ▸ List.getElem_mem hlt

/-- a settled upload leaves every photo with a different `assetId` exactly
in place. -/
theorem uploadAssetPhotos_getElem (a : Asset) (o : UploadOutcome)
    (photos : List LocalPhoto) (k : Nat) (p : LocalPhoto)
    (hk : photos[k]? = some p) (hne : p.assetId ≠ a.id) :
    (uploadAssetPhotos a o photos)[k]? = some p := by
  cases hf : o.fetchResult with
  | none => simp [uploadAssetPhotos, uploadAsset, uploadAssetTry, hf, hk]
  | some pid =>
    simp [uploadAssetPhotos, uploadAsset, uploadAssetTry, hf, applyUploadResponse,
      List.getElem?_map, hk, hne]

/-- a settled upload either changes nothing or applies the matched-photo
update for the parsed `photo_id`. -/
theorem uploadAssetPhotos_cases (a : Asset) (o : UploadOutcome)
    (photos : List LocalPhoto) :
    uploadAssetPhotos a o photos = photos
    ∨ ∃ pid, o.fetchResult = some pid
        ∧ uploadAssetPhotos a o photos = applyUploadResponse photos a.id pid := by
  cases hf : o.fetchResult with
  | none => left; simp [uploadAssetPhotos, uploadAsset, uploadAssetTry, hf]
  | some pid =>
    right
    exact ⟨pid, rfl, by simp [uploadAssetPhotos, uploadAsset, uploadAssetTry, hf]⟩

/-- a photo whose `assetId` is uploaded by none of the remaining calls stays
exactly in place through every subsequent state. -/
theorem uploadStates_frozen (outcomes : Asset → UploadOutcome) :
    ∀ (uploads : List Asset) (photos : List LocalPhoto) (k : Nat) (p : LocalPhoto),
      photos[k]? = some p → p.assetId ∉ uploads.map (fun a => a.id) →
      ∀ st ∈ uploadStates outcomes uploads photos, st[k]? = some p := by
  intro uploads
  induction uploads with
  | nil =>
    intro photos k p hk _ st hst
    simp only [uploadStates, List.mem_singleton] at hst
    subst hst
    exact hk
  | cons a rest ih =>
    intro photos k p hk hnm st hst
    simp only [List.map_cons, List.mem_cons, not_or] at hnm
    simp only [uploadStates, List.mem_cons] at hst
    rcases hst with h | h
    · subst h
      exact hk
    · exact ih (uploadAssetPhotos a (outcomes a) photos) k p
        (uploadAssetPhotos_getElem a (outcomes a) photos k p hk hnm.1) hnm.2 st h

/-- C6: along the sequence of photo-collection states produced by driving
any list of pairwise-distinct assets through `uploadAsset` (the only
operation that mutates `photoId`; the stated exception, a wholesale
collection reload, starts a fresh sequence), a photo that starts with
`photoId` absent has its `photoId` written at most once: from the first
state in which it is `some v`, the photo stays exactly the same in every
later state — `photoId` is never reset to absent and never changed. -/
theorem c6_photoId_write_once (outcomes : Asset → UploadOutcome) :
    ∀ (uploads : List Asset) (photos : List LocalPhoto),
      (uploads.map (fun a => a.id)).Nodup →
      (∀ p ∈ photos, p.assetId ∈ uploads.map (fun a => a.id) → p.photoId = none) →
      ∀ (i j : Nat) (si sj : List LocalPhoto), i ≤ j →
        (uploadStates outcomes uploads photos)[i]? = some si →
        (uploadStates outcomes uploads photos)[j]? = some sj →
        ∀ (k : Nat) (p : LocalPhoto) (v : String),
          si[k]? = some p → p.photoId = some v → sj[k]? = some p := by
  intro uploads
  induction uploads with
  | nil =>
    intro photos _ _ i j si sj hij hi hj k p v hk hv
    cases i with
    | zero =>
      cases j with
      | zero =>
        simp only [uploadStates, List.getElem?_cons_zero, Option.some.injEq] at hi hj
        rw [← hj]
        rw [← hi] at hk
        exact hk
      | succ j =>
        rw [uploadStates, List.getElem?_cons_succ] at hj
        simp at hj
    | succ i =>
      rw [uploadStates, List.getElem?_cons_succ] at hi
      simp at hi
  | cons a rest ih =>
    intro photos hnd hinit i j si sj hij hi hj k p v hk hv
    have hnd2 : ((a :: rest).map (fun a => a.id)).Nodup := hnd
    rw [List.map_cons, List.nodup_cons] at hnd2
    cases i with
    | zero =>
      have hsi : si = photos := by
        simpa [uploadStates] using hi.symm
      rw [hsi] at hk
      have hpm : p ∈ photos := mem_of_getElem?_list hk
      have hnm : p.assetId ∉ (a :: rest).map (fun a => a.id) := by
        intro hmem
        rw [hinit p hpm hmem] at hv
        cases hv
      have hsj : sj ∈ uploadStates outcomes (a :: rest) photos :=
        mem_of_getElem?_list hj
      exact uploadStates_frozen outcomes (a :: rest) photos k p hk hnm sj hsj
    | succ i =>
      cases j with
      | zero => omega
      | succ j =>
        rw [show uploadStates outcomes (a :: rest) photos
            = photos :: uploadStates outcomes rest
                (uploadAssetPhotos a (outcomes a) photos) from rfl,
          List.getElem?_cons_succ] at hi hj
        refine ih (uploadAssetPhotos a (outcomes a) photos) hnd2.2 ?_ i j si sj
          (by omega) hi hj k p v hk hv
        intro q hq hqm
        rcases uploadAssetPhotos_cases a (outcomes a) photos with hcase | ⟨pid, _, hcase⟩
        · rw [hcase] at hq
          exact hinit q hq (by rw [List.map_cons]; exact List.mem_cons_of_mem _ hqm)
        · rw [hcase] at hq
          obtain ⟨p0, hp0, hq0⟩ := List.mem_map.mp hq
          by_cases hpa : p0.assetId = a.id

          · rw [if_pos hpa] at hq0
            exfalso
            have : q.assetId = a.id := by rw [← hq0, hpa]
            rw [this] at hqm
            exact hnd2.1 hqm
          · rw [if_neg hpa] at hq0
            rw [← hq0] at hqm ⊢
            exact hinit p0 hp0 (by rw [List.map_cons]; exact List.mem_cons_of_mem _ hqm)

/-- witness for C6: two distinct assets uploaded in sequence; after the first
settles, its photo's fresh `photoId` survives the second upload unchanged. -/
theorem c6_witness :
    (([demoAsset 0, demoAsset 1].map (fun a => a.id)).Nodup
      ∧ ∀ p ∈ [mkPhoto (demoAsset 0), mkPhoto (demoAsset 1)],
          p.assetId ∈ [demoAsset 0, demoAsset 1].map (fun a => a.id) → p.photoId = none)
    ∧ (uploadStates demoOutcomes [demoAsset 0, demoAsset 1]
        [mkPhoto (demoAsset 0), mkPhoto (demoAsset 1)])[2]?
      = some [ { assetId := "a0", photoId := some "p-a0", uri := "u0" },
               { assetId := "a1", photoId := some "p-a1", uri := "u1" } ]
    ∧ [ ({ assetId := "a0", photoId := some "p-a0", uri := "u0" } : LocalPhoto),
        { assetId := "a1", photoId := some "p-a1", uri := "u1" } ][0]?
      = some { assetId := "a0", photoId := some "p-a0", uri := "u0" } := by
  refine ⟨⟨by decide, by decide⟩, by decide, ?_⟩
  exact c6_photoId_write_once demoOutcomes [demoAsset 0, demoAsset 1]
    [mkPhoto (demoAsset 0), mkPhoto (demoAsset 1)] (by decide) (by decide)
    1 2 [ { assetId := "a0", photoId := some "p-a0", uri := "u0" },
          { assetId := "a1", photoId := none, uri := "u1" } ]
      [ { assetId := "a0", photoId := some "p-a0", uri := "u0" },
        { assetId := "a1", photoId := some "p-a1", uri := "u1" } ]
    (by omega) (by decide) (by decide) 0
    { assetId := "a0", photoId := some "p-a0", uri := "u0" } "p-a0"
    (by decide) rfl

/-! ### Claim C3 -/

/-- C3: evaluation of `loadMore` at a failing input. After an initial run
that indexed 7 assets (`indexTotal = 7`), the device reports 20 assets; the
newly-paged slice `toIndex = assets.slice(7, 37)` holds the 13 assets
`a7 … a19`, but the loop `for (i = prev; i < prev + 30; i += 3)` slices
`toIndex` starting at index `prev = 7`, so only the 6 assets `a14 … a19`
are ever passed to `uploadAsset`; `a7` is newly selected yet never
attempted, `total` grows by 13 while `done` grows by only 6, leaving the
run's final state with `done = 13 < total = 20`. -/
theorem c3_loadMore_skips_assets :
    demoStateAfter7.indexTotal = 7
    ∧ demoStateAfter7.indexDone = 7
    ∧ demoAsset 7 ∈ loadMoreToIndex demoAssets20 7
    ∧ demoAsset 7 ∉ loadMoreAttempted demoAssets20 7
    ∧ (loadMoreToIndex demoAssets20 7).length = 13
    ∧ (loadMoreAttempted demoAssets20 7).map (fun a => a.id)
        = ["a14", "a15", "a16", "a17", "a18", "a19"]
    ∧ (loadMore demoAssets20 demoOutcomes demoStateAfter7).1.indexTotal = 20
    ∧ (loadMore demoAssets20 demoOutcomes demoStateAfter7).1.indexDone = 13 := by
  refine ⟨rfl, rfl, by decide, by decide, rfl, rfl, rfl, rfl⟩

end FotoFindr
